import Mathlib

/-!
Shallow embedding of the kiln-manager persistence layer
(`src/database/mod.rs` of the `kiln` repository) together with proofs
about its data model, its aggregate editors and its store operations.

Machine integers of the source (`u64`, `u32`, `usize`) are modelled as
`Nat`; the one place where a machine cast matters — the `u32`-to-`i32`
cast of a ramp rate — is modelled explicitly by `u32_as_i32`.
The SQLite store is modelled as lists of rows with per-table
autoincrement counters; a `failing` flag models a connection on which
every prepared statement reports an error.  A Rust `panic!`/`unwrap`
failure is modelled by the `DbResult.panic` constructor, which carries
the store state at the moment of the panic.
-/

/-- `Kiln` struct: row of the `Kilns` table. -/
structure Kiln where
  id : Nat
  name : String
  description : String
deriving DecidableEq

def Kiln.new (id : Nat) (name description : String) : Kiln :=
  ⟨id, name, description⟩

/-- `FiringSequence` struct: row of the `Firing_sequences` table. -/
structure FiringSequence where
  id : Nat
  name : String
  description : String
  kiln_id : Nat
deriving DecidableEq

def FiringSequence.new (id : Nat) (name description : String) (kiln_id : Nat) : FiringSequence :=
  ⟨id, name, description, kiln_id⟩

/-- `RampRate` enum: either a degrees/second value (a `u32` in the source)
or the AFAP sentinel. -/
inductive RampRate where
  | DegPerSec (n : Nat)
  | AFAP
deriving DecidableEq

/-- The Rust cast `n as i32` applied to a `u32` value `n`:
two's-complement wraparound at `2 ^ 31`. -/
def u32_as_i32 (n : Nat) : Int :=
  if n % 2 ^ 32 < 2 ^ 31 then ((n % 2 ^ 32 : Nat) : Int)
  else ((n % 2 ^ 32 : Nat) : Int) - 2 ^ 32

/-- `FiringStep` struct: row of the `Firing_steps` table.  The field
`ramp_rate` is the stored signed integer (`i32` in the source): `-1`
encodes AFAP, a value `≥ 0` encodes degrees/second. -/
structure FiringStep where
  id : Nat
  sequence_id : Nat
  ramp_rate : Int
  target_temp : Nat
  dwell_time : Nat
deriving DecidableEq

/-- `FiringStep::new`: encodes the tagged rate into the signed column. -/
def FiringStep.new (id sequence : Nat) (rate : RampRate) (target dwell : Nat) : FiringStep :=
  let ramp_rate : Int :=
    match rate with
    | RampRate.DegPerSec r => u32_as_i32 r
    | RampRate.AFAP => -1
  ⟨id, sequence, ramp_rate, target, dwell⟩

/-- `FiringStep::ramp_rate` accessor: decodes the signed column back to
the tagged value (`>= 0` becomes `DegPerSec`, negative becomes AFAP). -/
def FiringStep.rampRate (st : FiringStep) : RampRate :=
  if 0 ≤ st.ramp_rate then RampRate.DegPerSec st.ramp_rate.toNat else RampRate.AFAP

/-- `FiringStep::set_ramp_rate` mutator. -/
def FiringStep.set_ramp_rate (st : FiringStep) (new_rate : RampRate) : FiringStep :=
  match new_rate with
  | RampRate.DegPerSec n => { st with ramp_rate := u32_as_i32 n }
  | RampRate.AFAP => { st with ramp_rate := -1 }

def FiringStep.set_target_temp (st : FiringStep) (new_target : Nat) : FiringStep :=
  { st with target_temp := new_target }

def FiringStep.set_dwell_time (st : FiringStep) (new_dwell : Nat) : FiringStep :=
  { st with dwell_time := new_dwell }

/-- `DatabaseError` enum: the closed error taxonomy of the layer.
`SqlError` wraps the underlying driver failure (modelled by a message). -/
inductive DatabaseError where
  | SqlError (msg : String)
  | DuplicateName (name : String)
  | NoSuchName (name : String)
  | InvalidIndex (n : Nat)
  | FailedDeserialization (s : String)
  | NoSuchProgram (names : String × String)
  | InconsistentProgram (names : String × String)
  | InconsistentProject (name : String)
  | Unimplemented
deriving DecidableEq

/-- `KilnProgram` aggregate: a kiln, a firing sequence and its steps. -/
structure KilnProgram where
  kiln : Kiln
  sequence : FiringSequence
  steps : List FiringStep
deriving DecidableEq

/-- `KilnProgram::new`: empty step list. -/
def KilnProgram.new (kiln : Kiln) (sequence : FiringSequence) : KilnProgram :=
  ⟨kiln, sequence, []⟩

def KilnProgram.len (p : KilnProgram) : Nat := p.steps.length

/-- `KilnProgram::add_step`: append. -/
def KilnProgram.add_step (p : KilnProgram) (step : FiringStep) : KilnProgram :=
  { p with steps := p.steps ++ [step] }

/-- `KilnProgram::add_steps`: append each in order. -/
def KilnProgram.add_steps (p : KilnProgram) (steps : List FiringStep) : KilnProgram :=
  steps.foldl KilnProgram.add_step p

/-- `KilnProgram::remove_step`: bounds-checked removal.  The pair holds
the returned `Result` and the (possibly mutated) receiver. -/
def KilnProgram.remove_step (p : KilnProgram) (step : Nat) :
    Except DatabaseError Unit × KilnProgram :=
  if step < p.steps.length then
    (Except.ok (), { p with steps := p.steps.eraseIdx step })
  else
    (Except.error (DatabaseError.InvalidIndex step), p)

/-- `KilnProgram::insert_step`: bounds-checked insertion (`index = len`
is append). -/
def KilnProgram.insert_step (p : KilnProgram) (step : FiringStep) (index : Nat) :
    Except DatabaseError Unit × KilnProgram :=
  if index ≤ p.steps.length then
    (Except.ok (), { p with steps := p.steps.insertIdx index step })
  else
    (Except.error (DatabaseError.InvalidIndex index), p)

/-- `Project` struct: row of the `Projects` table. -/
structure Project where
  id : Nat
  name : String
  description : String
deriving DecidableEq

def Project.new (id : Nat) (name description : String) : Project :=
  ⟨id, name, description⟩

/-- `ProjectFiringStep` struct: row of the `Project_firings` table. -/
structure ProjectFiringStep where
  id : Nat
  project_id : Nat
  firing_sequence_id : Nat
  comment : String
deriving DecidableEq

/-- `ProjectImage` struct: row of the `Project_images` table.  The
`description` field is stored in the `caption` column; `contents` is the
opaque byte blob (a byte list here). -/
structure ProjectImage where
  id : Nat
  project_id : Nat
  name : String
  description : String
  contents : List Nat
deriving DecidableEq

/-- `KilnProject` aggregate: a project, lockstep comment/program lists,
and the picture list. -/
structure KilnProject where
  project : Project
  firing_comments : List String
  firings : List KilnProgram
  pictures : List ProjectImage
deriving DecidableEq

/-- `KilnProject::new`: all three lists start empty. -/
def KilnProject.new (project : Project) : KilnProject :=
  ⟨project, [], [], []⟩

def KilnProject.num_firings (kp : KilnProject) : Nat := kp.firings.length

def KilnProject.num_images (kp : KilnProject) : Nat := kp.pictures.length

/-- `KilnProject::add_firing`: push the comment and the program together. -/
def KilnProject.add_firing (kp : KilnProject) (firing : KilnProgram) (comment : String) :
    KilnProject :=
  { kp with firing_comments := kp.firing_comments ++ [comment],
            firings := kp.firings ++ [firing] }

/-- `KilnProject::add_picture`: push. -/
def KilnProject.add_picture (kp : KilnProject) (picture : ProjectImage) : KilnProject :=
  { kp with pictures := kp.pictures ++ [picture] }

/-- `KilnProject::delete_firing`: bounds-checked removal from both
lockstep lists. -/
def KilnProject.delete_firing (kp : KilnProject) (idx : Nat) :
    Except DatabaseError Unit × KilnProject :=
  if idx < kp.firings.length then
    (Except.ok (), { kp with firing_comments := kp.firing_comments.eraseIdx idx,
                             firings := kp.firings.eraseIdx idx })
  else
    (Except.error (DatabaseError.InvalidIndex idx), kp)

/-- `KilnProject::insert_firing`: bounds-checked insertion into both
lockstep lists. -/
def KilnProject.insert_firing (kp : KilnProject) (program : KilnProgram) (comment : String)
    (idx : Nat) : Except DatabaseError Unit × KilnProject :=
  if idx ≤ kp.firings.length then
    (Except.ok (), { kp with firings := kp.firings.insertIdx idx program,
                             firing_comments := kp.firing_comments.insertIdx idx comment })
  else
    (Except.error (DatabaseError.InvalidIndex idx), kp)

/-- `KilnProject::delete_picture`: bounds-checked removal. -/
def KilnProject.delete_picture (kp : KilnProject) (idx : Nat) :
    Except DatabaseError Unit × KilnProject :=
  if idx < kp.pictures.length then
    (Except.ok (), { kp with pictures := kp.pictures.eraseIdx idx })
  else
    (Except.error (DatabaseError.InvalidIndex idx), kp)

/-- `KilnProject::insert_picture`: bounds-checked insertion. -/
def KilnProject.insert_picture (kp : KilnProject) (image : ProjectImage) (idx : Nat) :
    Except DatabaseError Unit × KilnProject :=
  if idx ≤ kp.pictures.length then
    (Except.ok (), { kp with pictures := kp.pictures.insertIdx idx image })
  else
    (Except.error (DatabaseError.InvalidIndex idx), kp)

/-!  Schema initialization (`KilnDatabase::make_schema` and
`KilnDatabase::new`).  The relevant state of a database file is which of
the six tables already exist. -/

/-- Which of the six tables exist in the database file. -/
structure SchemaState where
  kilns : Bool
  firing_sequences : Bool
  firing_steps : Bool
  projects : Bool
  project_firings : Bool
  project_images : Bool
deriving DecidableEq

/-- A database file that has never been opened: no tables. -/
def SchemaState.empty : SchemaState := ⟨false, false, false, false, false, false⟩

/-- `KilnDatabase::make_schema`.  The first five statements are
`CREATE TABLE IF NOT EXISTS ...` and so succeed whether or not the table
exists; the sixth statement is a plain `CREATE TABLE Project_images ...`
with no `IF NOT EXISTS`, so it reports an error when that table already
exists. -/
def make_schema (d : SchemaState) : Except DatabaseError SchemaState :=
  let d := { d with kilns := true, firing_sequences := true, firing_steps := true,
                    projects := true, project_firings := true }
  if d.project_images then
    Except.error (DatabaseError.SqlError "table Project_images already exists")
  else
    Except.ok { d with project_images := true }

/-- `KilnDatabase::new` on a path whose file currently holds the given
tables: open always succeeds, then `make_schema` runs. -/
def KilnDatabase.new (d : SchemaState) : Except DatabaseError SchemaState :=
  make_schema d

/-!  The store.  Each table is a list of rows; ids are assigned from the
per-table autoincrement counters.  `failing` models a connection on
which every statement reports an error. -/

/-- The SQLite store behind a `KilnDatabase` connection. -/
structure Store where
  kilns : List Kiln
  seqs : List FiringSequence
  steps : List FiringStep
  projects : List Project
  firings : List ProjectFiringStep
  images : List ProjectImage
  nextKilnId : Nat
  nextSeqId : Nat
  nextStepId : Nat
  nextProjectId : Nat
  nextFiringId : Nat
  nextImageId : Nat
  failing : Bool
deriving DecidableEq

/-- Result of a store operation: a Rust panic (carrying the store at the
moment of the panic), an `Err(DatabaseError)` (carrying the resulting
store), or an `Ok` value with the resulting store. -/
inductive DbResult (α : Type) where
  | panic (s : Store)
  | err (e : DatabaseError) (s : Store)
  | ok (v : α) (s : Store)
deriving DecidableEq

/-- Insertion into a list sorted by a `Nat` key. -/
def insertSorted (key : α → Nat) (a : α) : List α → List α
  | [] => [a]
  | b :: l => if key a ≤ key b then a :: b :: l else b :: insertSorted key a l

/-- Sorting by a `Nat` key; models a SQL `ORDER BY key ASC`. -/
def insSortBy (key : α → Nat) : List α → List α
  | [] => []
  | a :: l => insertSorted key a (insSortBy key l)

/-- `SELECT COUNT(*) FROM Kilns WHERE name = ?`. -/
def countKilnsWithName (s : Store) (name : String) : Nat :=
  (s.kilns.filter (fun k => k.name == name)).length

/-- `KilnDatabase::get_count`: prepares and runs a count query with
`.unwrap()` on every fallible call, so a store failure panics instead of
returning an error.  `count` is the value the query would produce. -/
def get_count (s : Store) (count : Nat) : Option Nat :=
  if s.failing then none else some count

/-- `KilnDatabase::add_kiln`: duplicate check by count query, then
insert. -/
def KilnDatabase.add_kiln (s : Store) (name description : String) : DbResult Unit :=
  match get_count s (countKilnsWithName s name) with
  | none => DbResult.panic s
  | some c =>
    if c ≠ 0 then DbResult.err (DatabaseError.DuplicateName name) s
    else
      DbResult.ok () { s with kilns := s.kilns ++ [Kiln.new s.nextKilnId name description],
                              nextKilnId := s.nextKilnId + 1 }

/-- The join of `Kilns` and `Firing_sequences` used by
`get_kiln_program`: rows with `Kilns.name = kn`,
`Firing_sequences.name = pn` and `Firing_sequences.kiln_id = Kilns.id`.
Only the first row is consumed by the source. -/
def joinKilnSeq (kilns : List Kiln) (seqs : List FiringSequence) (kn pn : String) :
    Option (Kiln × FiringSequence) :=
  ((kilns.filter (fun k => k.name == kn)).flatMap (fun k =>
    (seqs.filter (fun q => q.name == pn && q.kiln_id == k.id)).map (fun q => (k, q)))).head?

/-- `KilnDatabase::get_kiln_program`: join for the header row, rebuild
the kiln and sequence values from the row and the passed-in names, then
fetch the steps of that sequence ordered by ascending id. -/
def KilnDatabase.get_kiln_program (s : Store) (kiln_name program_name : String) :
    DbResult (Option KilnProgram) :=
  if s.failing then DbResult.err (DatabaseError.SqlError "prepare") s
  else
    match joinKilnSeq s.kilns s.seqs kiln_name program_name with
    | none => DbResult.ok none s
    | some (k, q) =>
      let kiln := Kiln.new k.id kiln_name k.description
      let program := FiringSequence.new q.id program_name q.description kiln.id
      let steps := insSortBy (fun st => st.id)
        (s.steps.filter (fun st => st.sequence_id == q.id))
      DbResult.ok (some { kiln := kiln, sequence := program, steps := steps }) s

/-- The insertion loop of `update_kiln_program`: each caller step is
inserted with a fresh autoincrement id, its rate re-encoded from the
decoded `ramp_rate()` accessor value; the echoed step list is built with
`FiringStep::new` from `last_insert_rowid`. -/
def mkNewSteps (seqid : Nat) : Nat → List FiringStep → List FiringStep
  | _, [] => []
  | nextId, st :: rest =>
    FiringStep.new nextId seqid st.rampRate st.target_temp st.dwell_time ::
      mkNewSteps seqid (nextId + 1) rest

/-- `KilnDatabase::update_kiln_program`: re-fetch by the caller's names,
compare the header field-for-field, then in one transaction delete the
stored steps by id and insert the caller's steps with fresh ids. -/
def KilnDatabase.update_kiln_program (s : Store) (program : KilnProgram) :
    DbResult KilnProgram :=
  let kiln := program.kiln
  let seq := program.sequence
  match KilnDatabase.get_kiln_program s kiln.name seq.name with
  | DbResult.panic s' => DbResult.panic s'
  | DbResult.err e s' => DbResult.err e s'
  | DbResult.ok none _ => DbResult.err (DatabaseError.NoSuchProgram (kiln.name, seq.name)) s
  | DbResult.ok (some current_program) _ =>
    if kiln ≠ current_program.kiln ∨ seq ≠ current_program.sequence then
      DbResult.err (DatabaseError.InconsistentProgram (kiln.name, seq.name)) s
    else
      let existing_step_ids := current_program.steps.map (fun st => st.id)
      let remaining := s.steps.filter (fun st => !(existing_step_ids.contains st.id))
      let newSteps := mkNewSteps seq.id s.nextStepId program.steps
      DbResult.ok { kiln := kiln, sequence := seq, steps := newSteps }
        { s with steps := remaining ++ newSteps,
                 nextStepId := s.nextStepId + program.steps.length }

/-- `KilnDatabase::add_project`: uniqueness count check, then insert. -/
def KilnDatabase.add_project (s : Store) (name description : String) : DbResult KilnProject :=
  match get_count s ((s.projects.filter (fun p => p.name == name)).length) with
  | none => DbResult.panic s
  | some c =>
    if c > 0 then DbResult.err (DatabaseError.DuplicateName name) s
    else
      let project := Project.new s.nextProjectId name description
      DbResult.ok (KilnProject.new project)
        { s with projects := s.projects ++ [project], nextProjectId := s.nextProjectId + 1 }

/-- The three-table join of `get_project_firing_steps`: for each
`Project_firings` row of the project, the matching `Firing_sequences`
row and the matching `Kilns` row; rows ordered by ascending firing
sequence id.  Each row keeps the sequence (for the sort key and its
name), the kiln name and the comment. -/
def projectFiringJoin (s : Store) (pid : Nat) : List (FiringSequence × String × String) :=
  (s.firings.filter (fun f => f.project_id == pid)).flatMap (fun f =>
    (s.seqs.filter (fun q => q.id == f.firing_sequence_id)).flatMap (fun q =>
      (s.kilns.filter (fun k => q.kiln_id == k.id)).map (fun k => (q, k.name, f.comment))))

/-- The resolution loop of `get_project_firing_steps`: each joined row's
(kiln name, sequence name) pair is re-resolved through
`get_kiln_program`, and the `Option` is unwrapped — `None` would panic. -/
def collectFirings (s : Store) : List (FiringSequence × String × String) →
    DbResult (List (KilnProgram × String))
  | [] => DbResult.ok [] s
  | (q, kname, comment) :: rest =>
    match KilnDatabase.get_kiln_program s kname q.name with
    | DbResult.panic s' => DbResult.panic s'
    | DbResult.err e s' => DbResult.err e s'
    | DbResult.ok none _ => DbResult.panic s
    | DbResult.ok (some pgm) _ =>
      match collectFirings s rest with
      | DbResult.panic s' => DbResult.panic s'
      | DbResult.err e s' => DbResult.err e s'
      | DbResult.ok l s' => DbResult.ok ((pgm, comment) :: l) s'

/-- `KilnDatabase::get_project_firing_steps`. -/
def KilnDatabase.get_project_firing_steps (s : Store) (project : KilnProject) :
    DbResult (List (KilnProgram × String)) :=
  if s.failing then DbResult.err (DatabaseError.SqlError "prepare") s
  else
    collectFirings s (insSortBy (fun r => r.1.id) (projectFiringJoin s project.project.id))

/-- `KilnDatabase::get_project_images`: images of the project ordered by
ascending id; the `caption` column is surfaced as `description`. -/
def KilnDatabase.get_project_images (s : Store) (project : KilnProject) :
    DbResult (List ProjectImage) :=
  if s.failing then DbResult.err (DatabaseError.SqlError "prepare") s
  else
    DbResult.ok
      (insSortBy (fun im => im.id)
        (s.images.filter (fun im => im.project_id == project.project.id))) s

/-- `KilnDatabase::get_project`: the project row by name, then the
firings, then the images. -/
def KilnDatabase.get_project (s : Store) (name : String) : DbResult (Option KilnProject) :=
  if s.failing then DbResult.err (DatabaseError.SqlError "prepare") s
  else
    match (s.projects.filter (fun p => p.name == name)).head? with
    | none => DbResult.ok none s
    | some prow =>
      let full_project := KilnProject.new prow
      match KilnDatabase.get_project_firing_steps s full_project with
      | DbResult.panic s' => DbResult.panic s'
      | DbResult.err e s' => DbResult.err e s'
      | DbResult.ok firings _ =>
        let full_project :=
          firings.foldl (fun kp gc => kp.add_firing gc.1 gc.2) full_project
        match KilnDatabase.get_project_images s full_project with
        | DbResult.panic s' => DbResult.panic s'
        | DbResult.err e s' => DbResult.err e s'
        | DbResult.ok images _ =>
          DbResult.ok (some (images.foldl (fun kp im => kp.add_picture im) full_project)) s

/-- `KilnDatabase::add_project_image`: insert the image row tied to the
caller's in-memory project id with no existence check, then re-fetch the
project by name and unwrap both layers of the result — `Ok(None)`
panics. -/
def KilnDatabase.add_project_image (s : Store) (project : KilnProject)
    (image_name description : String) (image_data : List Nat) : DbResult KilnProject :=
  if s.failing then DbResult.err (DatabaseError.SqlError "execute") s
  else
    let s1 := { s with
      images := s.images ++
        [⟨s.nextImageId, project.project.id, image_name, description, image_data⟩],
      nextImageId := s.nextImageId + 1 }
    match KilnDatabase.get_project s1 project.project.name with
    | DbResult.panic s' => DbResult.panic s'
    | DbResult.err e s' => DbResult.err e s'
    | DbResult.ok none s' => DbResult.panic s'
    | DbResult.ok (some kp) s' => DbResult.ok kp s'

/-- Well-formedness of the step table as maintained by the store: rows
in strictly ascending id order, all ids below the autoincrement
counter. -/
def StoreWF (s : Store) : Prop :=
  s.steps.Pairwise (fun a b => a.id < b.id) ∧ ∀ st ∈ s.steps, st.id < s.nextStepId

/-!  Helper lemmas about the ramp-rate encoding. -/

theorem u32_as_i32_of_lt {n : Nat} (h : n < 2 ^ 31) : u32_as_i32 n = (n : Int) := by
  have h32 : n % 2 ^ 32 = n := Nat.mod_eq_of_lt (by omega)
  unfold u32_as_i32
  rw [h32, if_pos h]

theorem rampRate_new_DegPerSec (id seq target dwell : Nat) {n : Nat} (h : n < 2 ^ 31) :
    (FiringStep.new id seq (RampRate.DegPerSec n) target dwell).rampRate =
      RampRate.DegPerSec n := by
  simp [FiringStep.new, FiringStep.rampRate, u32_as_i32_of_lt h]

theorem rampRate_new_AFAP (id seq target dwell : Nat) :
    (FiringStep.new id seq RampRate.AFAP target dwell).rampRate = RampRate.AFAP := by
  simp [FiringStep.new, FiringStep.rampRate]

/-- Re-encoding the decoded rate of a step whose raw column fits in
`i32` gives the decoded rate back. -/
theorem rampRate_new_rampRate (id seq target dwell : Nat) (st : FiringStep)
    (h : st.ramp_rate < 2 ^ 31) :
    (FiringStep.new id seq st.rampRate target dwell).rampRate = st.rampRate := by
  by_cases h0 : 0 ≤ st.ramp_rate
  · have hrr : st.rampRate = RampRate.DegPerSec st.ramp_rate.toNat := by
      simp [FiringStep.rampRate, h0]
    have hlt : st.ramp_rate.toNat < 2 ^ 31 := by omega
    rw [hrr]
    exact rampRate_new_DegPerSec id seq target dwell hlt
  · have hrr : st.rampRate = RampRate.AFAP := by
      simp [FiringStep.rampRate, h0]
    rw [hrr]
    exact rampRate_new_AFAP id seq target dwell

/-!  Helper lemmas about sorting by a `Nat` key. -/

theorem insertSorted_of_lt (key : α → Nat) (a : α) (l : List α)
    (h : ∀ b ∈ l, key a < key b) : insertSorted key a l = a :: l := by
  cases l with
  | nil => rfl
  | cons b l =>
    have : key a ≤ key b := Nat.le_of_lt (h b (by simp))
    simp [insertSorted, this]

theorem insSortBy_eq_self (key : α → Nat) (l : List α)
    (h : l.Pairwise (fun x y => key x < key y)) : insSortBy key l = l := by
  induction l with
  | nil => rfl
  | cons a l ih =>
    rw [List.pairwise_cons] at h
    rw [insSortBy, ih h.2]
    exact insertSorted_of_lt key a l h.1

theorem mem_insertSorted (key : α → Nat) (a x : α) (l : List α) :
    x ∈ insertSorted key a l ↔ x ∈ a :: l := by
  induction l with
  | nil => simp [insertSorted]
  | cons b l ih =>
    by_cases h : key a ≤ key b
    · simp [insertSorted, h]
    · simp only [insertSorted, if_neg h, List.mem_cons, ih]
      tauto

theorem mem_insSortBy (key : α → Nat) (x : α) (l : List α) :
    x ∈ insSortBy key l ↔ x ∈ l := by
  induction l with
  | nil => simp [insSortBy]
  | cons a l ih =>
    rw [insSortBy, mem_insertSorted]
    simp [ih]

/-!  Helper lemmas about zipping lockstep lists. -/

theorem zip_insertIdx {α β : Type} (a : α) (b : β) :
    ∀ (n : Nat) (l1 : List α) (l2 : List β), l1.length = l2.length → n ≤ l1.length →
      (l1.insertIdx n a).zip (l2.insertIdx n b) = (l1.zip l2).insertIdx n (a, b)
  | 0, l1, l2, _, _ => by simp
  | n + 1, [], l2, h, hn => by simp at hn
  | n + 1, x :: l1, [], h, hn => by simp at h
  | n + 1, x :: l1, y :: l2, h, hn => by
    simp only [List.insertIdx_succ_cons, List.zip_cons_cons]
    rw [zip_insertIdx a b n l1 l2 (by simpa using h) (by simpa using hn)]

theorem zip_eraseIdx {α β : Type} :
    ∀ (n : Nat) (l1 : List α) (l2 : List β), l1.length = l2.length →
      (l1.eraseIdx n).zip (l2.eraseIdx n) = (l1.zip l2).eraseIdx n
  | _, [], l2, h => by
    have : l2 = [] := by cases l2 <;> simp_all
    simp [this]
  | _, x :: l1, [], h => by simp at h
  | 0, x :: l1, y :: l2, _ => by simp
  | n + 1, x :: l1, y :: l2, h => by
    simp only [List.eraseIdx_cons_succ, List.zip_cons_cons]
    rw [zip_eraseIdx n l1 l2 (by simpa using h)]

/-!  The editing operations of `KilnProject`, as an operation language,
for the lockstep invariant. -/

/-- One call to a `KilnProject` list editor. -/
inductive ProjOp where
  | addFiring (pgm : KilnProgram) (comment : String)
  | insertFiring (pgm : KilnProgram) (comment : String) (idx : Nat)
  | deleteFiring (idx : Nat)
  | addPicture (img : ProjectImage)
  | insertPicture (img : ProjectImage) (idx : Nat)
  | deletePicture (idx : Nat)

/-- Run one editor call on a project (dropping the returned `Result`). -/
def applyOp (kp : KilnProject) : ProjOp → KilnProject
  | ProjOp.addFiring p c => kp.add_firing p c
  | ProjOp.insertFiring p c i => (kp.insert_firing p c i).2
  | ProjOp.deleteFiring i => (kp.delete_firing i).2
  | ProjOp.addPicture im => kp.add_picture im
  | ProjOp.insertPicture im i => (kp.insert_picture im i).2
  | ProjOp.deletePicture i => (kp.delete_picture i).2

/-- Run a sequence of editor calls. -/
def applyOps (kp : KilnProject) (ops : List ProjOp) : KilnProject :=
  ops.foldl applyOp kp

/-- The same operation on a single list of (comment, program) pairs:
the reference semantics for the lockstep pair of lists. -/
def pairOp (l : List (String × KilnProgram)) : ProjOp → List (String × KilnProgram)
  | ProjOp.addFiring p c => l ++ [(c, p)]
  | ProjOp.insertFiring p c i => if i ≤ l.length then l.insertIdx i (c, p) else l
  | ProjOp.deleteFiring i => if i < l.length then l.eraseIdx i else l
  | _ => l

theorem applyOp_zip (kp : KilnProject) (op : ProjOp)
    (h : kp.firing_comments.length = kp.firings.length) :
    (applyOp kp op).firing_comments.length = (applyOp kp op).firings.length ∧
      (applyOp kp op).firing_comments.zip (applyOp kp op).firings =
        pairOp (kp.firing_comments.zip kp.firings) op := by
  have hzlen : (kp.firing_comments.zip kp.firings).length = kp.firings.length := by
    simp [List.length_zip, h]
  cases op with
  | addFiring p c =>
    refine ⟨by simp [applyOp, KilnProject.add_firing, h], ?_⟩
    simp only [applyOp, KilnProject.add_firing, pairOp]
    rw [List.zip_append h]
    rfl
  | insertFiring p c i =>
    by_cases hi : i ≤ kp.firings.length
    · constructor
      · simp only [applyOp, KilnProject.insert_firing, if_pos hi]
        rw [List.length_insertIdx i _ (by omega), List.length_insertIdx i _ (by omega)]
        omega
      · simp only [applyOp, KilnProject.insert_firing, if_pos hi, pairOp, hzlen, if_pos hi]
        exact zip_insertIdx c p i _ _ h (by omega)
    · simp only [applyOp, KilnProject.insert_firing, if_neg hi, pairOp, hzlen, if_neg hi]
      exact ⟨h, trivial⟩
  | deleteFiring i =>
    by_cases hi : i < kp.firings.length
    · constructor
      · simp only [applyOp, KilnProject.delete_firing, if_pos hi]
        rw [List.length_eraseIdx, List.length_eraseIdx]
        simp [h, hi]
      · simp only [applyOp, KilnProject.delete_firing, if_pos hi, pairOp, hzlen, if_pos hi]
        exact zip_eraseIdx i _ _ h
    · simp only [applyOp, KilnProject.delete_firing, if_neg hi, pairOp, hzlen, if_neg hi]
      exact ⟨h, trivial⟩
  | addPicture im =>
    exact ⟨by simpa [applyOp, KilnProject.add_picture] using h,
      by simp [applyOp, KilnProject.add_picture, pairOp]⟩
  | insertPicture im i =>
    constructor
    · by_cases hi : i ≤ kp.pictures.length <;>
        simp [applyOp, KilnProject.insert_picture, hi, h]
    · by_cases hi : i ≤ kp.pictures.length <;>
        simp [applyOp, KilnProject.insert_picture, hi, pairOp]
  | deletePicture i =>
    constructor
    · by_cases hi : i < kp.pictures.length <;>
        simp [applyOp, KilnProject.delete_picture, hi, h]
    · by_cases hi : i < kp.pictures.length <;>
        simp [applyOp, KilnProject.delete_picture, hi, pairOp]

theorem applyOps_zip (ops : List ProjOp) (kp : KilnProject)
    (h : kp.firing_comments.length = kp.firings.length) :
    (applyOps kp ops).firing_comments.length = (applyOps kp ops).firings.length ∧
      (applyOps kp ops).firing_comments.zip (applyOps kp ops).firings =
        ops.foldl pairOp (kp.firing_comments.zip kp.firings) := by
  induction ops generalizing kp with
  | nil => exact ⟨h, rfl⟩
  | cons op ops ih =>
    have h1 := applyOp_zip kp op h
    have h2 := ih (applyOp kp op) h1.1
    refine ⟨h2.1, ?_⟩
    rw [List.foldl_cons, ← h1.2]
    exact h2.2

/-!  Concrete stores used by witnesses and counterexamples. -/

/-- A fresh store: all tables empty, all autoincrement counters at 1,
healthy connection. -/
def emptyStore : Store :=
  ⟨[], [], [], [], [], [], 1, 1, 1, 1, 1, 1, false⟩

/-- A store whose connection fails every statement. -/
def failingStore : Store :=
  ⟨[], [], [], [], [], [], 1, 1, 1, 1, 1, 1, true⟩

/-- A database file holding all six tables. -/
def SchemaState.full : SchemaState := ⟨true, true, true, true, true, true⟩

/-- C2: the schema initializer is NOT idempotent.  The first five
statements are `CREATE TABLE IF NOT EXISTS`, but the `Project_images`
statement is a plain `CREATE TABLE`, so the first open of a path
succeeds while the second open of the same path fails with the
underlying store error instead of returning Ok. -/
theorem claim_C2_reopen_fails :
    KilnDatabase.new SchemaState.empty = Except.ok SchemaState.full ∧
    KilnDatabase.new SchemaState.full =
      Except.error (DatabaseError.SqlError "table Project_images already exists") :=
  ⟨rfl, rfl⟩

/-- C4 counterexample: the claim quantifies over every `RampRate` value,
but `FiringStep::new` stores the `u32` rate with an `as i32` cast, so
`DegPerSec (2 ^ 31)` wraps to a negative column value and the
`ramp_rate()` accessor decodes it as AFAP, not as the original rate. -/
theorem claim_C4_cex :
    (FiringStep.new 1 1 (RampRate.DegPerSec (2 ^ 31)) 1000 10).rampRate ≠
      RampRate.DegPerSec (2 ^ 31) := by decide

/-- C4 (amended): for `AFAP` and for `DegPerSec n` with `n < 2 ^ 31`
(the rates representable in the signed `i32` column), construction via
`FiringStep::new` or `set_ramp_rate` stores the single signed integer
(`-1` for AFAP, the rate value otherwise) and the `ramp_rate()`
accessor returns exactly the given rate again; `DegPerSec 0`
round-trips and is distinct from AFAP. -/
theorem claim_C4_rate_roundtrip (id seq target dwell : Nat) (st : FiringStep) (n : Nat)
    (h : n < 2 ^ 31) :
    (FiringStep.new id seq (RampRate.DegPerSec n) target dwell).ramp_rate = (n : Int) ∧
    (FiringStep.new id seq RampRate.AFAP target dwell).ramp_rate = -1 ∧
    (FiringStep.new id seq (RampRate.DegPerSec n) target dwell).rampRate =
      RampRate.DegPerSec n ∧
    (FiringStep.new id seq RampRate.AFAP target dwell).rampRate = RampRate.AFAP ∧
    (st.set_ramp_rate (RampRate.DegPerSec n)).rampRate = RampRate.DegPerSec n ∧
    (st.set_ramp_rate RampRate.AFAP).rampRate = RampRate.AFAP ∧
    RampRate.DegPerSec 0 ≠ RampRate.AFAP := by
  refine ⟨?_, rfl, rampRate_new_DegPerSec id seq target dwell h,
    rampRate_new_AFAP id seq target dwell, ?_, ?_, by decide⟩
  · simp [FiringStep.new, u32_as_i32_of_lt h]
  · simp [FiringStep.set_ramp_rate, FiringStep.rampRate, u32_as_i32_of_lt h]
  · simp [FiringStep.set_ramp_rate, FiringStep.rampRate]

/-- C4 witness: the rate 0 round-trips to `DegPerSec 0`. -/
theorem claim_C4_witness :
    (FiringStep.new 1 1 (RampRate.DegPerSec 0) 1000 10).rampRate = RampRate.DegPerSec 0 :=
  (claim_C4_rate_roundtrip 1 1 1000 10 ⟨1, 1, 0, 1000, 10⟩ 0 (by decide)).2.2.1

/-- C5: each bounds-checked editor fails with `InvalidIndex n` exactly
when `n` is out of range (`n ≥ len` for remove/delete, `n > len` for
insert) and leaves the whole aggregate — hence also the paired
collection — unchanged on failure. -/
theorem claim_C5_invalid_index (p : KilnProgram) (kp : KilnProject) (n : Nat)
    (st : FiringStep) (pgm : KilnProgram) (c : String) (img : ProjectImage) :
    ((p.remove_step n).1 = Except.error (DatabaseError.InvalidIndex n) ↔
      p.steps.length ≤ n) ∧
    (p.steps.length ≤ n → (p.remove_step n).2 = p) ∧
    ((p.insert_step st n).1 = Except.error (DatabaseError.InvalidIndex n) ↔
      p.steps.length < n) ∧
    (p.steps.length < n → (p.insert_step st n).2 = p) ∧
    ((kp.delete_firing n).1 = Except.error (DatabaseError.InvalidIndex n) ↔
      kp.firings.length ≤ n) ∧
    (kp.firings.length ≤ n → (kp.delete_firing n).2 = kp) ∧
    ((kp.insert_firing pgm c n).1 = Except.error (DatabaseError.InvalidIndex n) ↔
      kp.firings.length < n) ∧
    (kp.firings.length < n → (kp.insert_firing pgm c n).2 = kp) ∧
    ((kp.delete_picture n).1 = Except.error (DatabaseError.InvalidIndex n) ↔
      kp.pictures.length ≤ n) ∧
    (kp.pictures.length ≤ n → (kp.delete_picture n).2 = kp) ∧
    ((kp.insert_picture img n).1 = Except.error (DatabaseError.InvalidIndex n) ↔
      kp.pictures.length < n) ∧
    (kp.pictures.length < n → (kp.insert_picture img n).2 = kp) := by
  refine ⟨?_, ?_, ?_, ?_, ?_, ?_, ?_, ?_, ?_, ?_, ?_, ?_⟩ <;>
    first
      | (by_cases hn : n < p.steps.length <;>
          simp [KilnProgram.remove_step, hn] <;> omega)
      | (by_cases hn : n ≤ p.steps.length <;>
          simp [KilnProgram.insert_step, hn] <;> omega)
      | (by_cases hn : n < kp.firings.length <;>
          simp [KilnProject.delete_firing, hn] <;> omega)
      | (by_cases hn : n ≤ kp.firings.length <;>
          simp [KilnProject.insert_firing, hn] <;> omega)
      | (by_cases hn : n < kp.pictures.length <;>
          simp [KilnProject.delete_picture, hn] <;> omega)
      | (by_cases hn : n ≤ kp.pictures.length <;>
          simp [KilnProject.insert_picture, hn] <;> omega)

/-- C5 witness: removing step 0 from an empty program fails with
`InvalidIndex 0` and leaves the program unchanged. -/
theorem claim_C5_witness :
    ((KilnProgram.new (Kiln.new 1 "K" "d") (FiringSequence.new 1 "P" "d" 1)).remove_step 0).1 =
      Except.error (DatabaseError.InvalidIndex 0) :=
  (claim_C5_invalid_index (KilnProgram.new (Kiln.new 1 "K" "d") (FiringSequence.new 1 "P" "d" 1))
    (KilnProject.new (Project.new 1 "Pr" "d")) 0 ⟨1, 1, 0, 0, 0⟩
    (KilnProgram.new (Kiln.new 1 "K" "d") (FiringSequence.new 1 "P" "d" 1)) ""
    ⟨1, 1, "i", "d", []⟩).1.mpr (by decide)

/-- C6: starting from `KilnProject::new` (both lists empty), every
sequence of firing and picture editor calls keeps
`len(firing_comments) = len(firings)`, and the positional pairing of
comment i with program i evolves exactly as the corresponding
operations on a single list of (comment, program) pairs. -/
theorem claim_C6_lockstep (project : Project) (ops : List ProjOp) :
    (KilnProject.new project).firing_comments.length = 0 ∧
    (KilnProject.new project).firings.length = 0 ∧
    (applyOps (KilnProject.new project) ops).firing_comments.length =
      (applyOps (KilnProject.new project) ops).firings.length ∧
    (applyOps (KilnProject.new project) ops).firing_comments.zip
      (applyOps (KilnProject.new project) ops).firings = ops.foldl pairOp [] := by
  have h := applyOps_zip ops (KilnProject.new project) rfl
  exact ⟨rfl, rfl, h.1, h.2⟩

/-- C7: adding the same kiln name twice succeeds the first time, fails
with `DuplicateName` the second time, leaves exactly one matching row,
and the failing call does not change the store. -/
theorem claim_C7_duplicate_kiln (s : Store) (name d1 d2 : String)
    (hf : s.failing = false) (h0 : countKilnsWithName s name = 0) :
    KilnDatabase.add_kiln s name d1 =
      DbResult.ok () { s with kilns := s.kilns ++ [Kiln.new s.nextKilnId name d1],
                              nextKilnId := s.nextKilnId + 1 } ∧
    KilnDatabase.add_kiln { s with kilns := s.kilns ++ [Kiln.new s.nextKilnId name d1],
                                   nextKilnId := s.nextKilnId + 1 } name d2 =
      DbResult.err (DatabaseError.DuplicateName name)
        { s with kilns := s.kilns ++ [Kiln.new s.nextKilnId name d1],
                 nextKilnId := s.nextKilnId + 1 } ∧
    countKilnsWithName { s with kilns := s.kilns ++ [Kiln.new s.nextKilnId name d1],
                                nextKilnId := s.nextKilnId + 1 } name = 1 := by
  have hc1 : countKilnsWithName { s with
      kilns := s.kilns ++ [Kiln.new s.nextKilnId name d1],
      nextKilnId := s.nextKilnId + 1 } name = 1 := by
    simp only [countKilnsWithName, Kiln.new] at *
    rw [List.filter_append]
    simp_all
  have hc2 : countKilnsWithName { s with
      kilns := s.kilns ++ [Kiln.new s.nextKilnId name d1],
      nextKilnId := s.nextKilnId + 1, failing := false } name = 1 := by
    simpa [countKilnsWithName] using hc1
  refine ⟨?_, ?_, hc1⟩
  · simp [KilnDatabase.add_kiln, get_count, hf, h0]
  · simp [KilnDatabase.add_kiln, get_count, hf, hc1, hc2]

/-- C7 witness: on the empty store, "Kiln1" is created once and
rejected as a duplicate the second time. -/
theorem claim_C7_witness :
    KilnDatabase.add_kiln emptyStore "Kiln1" "big" =
      DbResult.ok () { emptyStore with
        kilns := emptyStore.kilns ++ [Kiln.new emptyStore.nextKilnId "Kiln1" "big"],
        nextKilnId := emptyStore.nextKilnId + 1 } ∧
    KilnDatabase.add_kiln { emptyStore with
        kilns := emptyStore.kilns ++ [Kiln.new emptyStore.nextKilnId "Kiln1" "big"],
        nextKilnId := emptyStore.nextKilnId + 1 } "Kiln1" "other" =
      DbResult.err (DatabaseError.DuplicateName "Kiln1") { emptyStore with
        kilns := emptyStore.kilns ++ [Kiln.new emptyStore.nextKilnId "Kiln1" "big"],
        nextKilnId := emptyStore.nextKilnId + 1 } :=
  ⟨(claim_C7_duplicate_kiln emptyStore "Kiln1" "big" "other" rfl rfl).1,
   (claim_C7_duplicate_kiln emptyStore "Kiln1" "big" "other" rfl rfl).2.1⟩

/-- C9: the layer does NOT always return a result value on store
failure: `get_count` unwraps the prepare/query results, so when the
connection fails during the uniqueness count query, `add_kiln` and
`add_project` panic instead of returning a `SqlError`. -/
theorem claim_C9_count_query_panics :
    KilnDatabase.add_kiln failingStore "Kiln1" "d" = DbResult.panic failingStore ∧
    KilnDatabase.add_project failingStore "Proj1" "d" = DbResult.panic failingStore :=
  ⟨rfl, rfl⟩

/-!  C3: behaviour of `update_kiln_program` on an altered caller header. -/

/-- Store with one kiln "K" (id 1) owning one program "P" (id 1). -/
def storeKP : Store :=
  ⟨[⟨1, "K", "kd"⟩], [⟨1, "P", "pd", 1⟩], [], [], [], [], 2, 2, 1, 1, 1, 1, false⟩

/-- C3 counterexample: with kiln "K"/program "P" stored, a caller whose
kiln NAME was altered to "X" gets `NoSuchProgram` carrying the caller's
falsified pair — not `InconsistentProgram` with the stored names as the
claim requires. -/
theorem claim_C3_cex :
    KilnDatabase.update_kiln_program storeKP ⟨⟨1, "X", "kd"⟩, ⟨1, "P", "pd", 1⟩, []⟩ =
      DbResult.err (DatabaseError.NoSuchProgram ("X", "P")) storeKP ∧
    KilnDatabase.update_kiln_program storeKP ⟨⟨1, "X", "kd"⟩, ⟨1, "P", "pd", 1⟩, []⟩ ≠
      DbResult.err (DatabaseError.InconsistentProgram ("K", "P")) storeKP := by
  constructor
  · rfl
  · decide

/-- C3 (amended): if the caller's (kiln name, program name) pair still
resolves — i.e. the altered field is the kiln id, the sequence id, the
sequence's kiln back-reference or a description, while both names are
unchanged — then `update_kiln_program` fails with
`InconsistentProgram` carrying names that equal the stored ones, and
the store (hence the stored steps) is unchanged.  If instead the pair
no longer resolves (a name was altered), it fails with
`NoSuchProgram` carrying the caller's altered names. -/
theorem claim_C3_header_mismatch (s : Store) (p : KilnProgram) (current : KilnProgram) :
    (KilnDatabase.get_kiln_program s p.kiln.name p.sequence.name =
        DbResult.ok (some current) s →
      (p.kiln ≠ current.kiln ∨ p.sequence ≠ current.sequence) →
      KilnDatabase.update_kiln_program s p =
          DbResult.err (DatabaseError.InconsistentProgram (p.kiln.name, p.sequence.name)) s ∧
        p.kiln.name = current.kiln.name ∧ p.sequence.name = current.sequence.name) ∧
    (KilnDatabase.get_kiln_program s p.kiln.name p.sequence.name = DbResult.ok none s →
      KilnDatabase.update_kiln_program s p =
        DbResult.err (DatabaseError.NoSuchProgram (p.kiln.name, p.sequence.name)) s) := by
  constructor
  · intro hget hne
    have hnames : p.kiln.name = current.kiln.name ∧
        p.sequence.name = current.sequence.name := by
      unfold KilnDatabase.get_kiln_program at hget
      by_cases hf : s.failing
      · simp [hf] at hget
      · simp only [hf, if_false, Bool.false_eq_true] at hget
        cases hj : joinKilnSeq s.kilns s.seqs p.kiln.name p.sequence.name with
        | none => rw [hj] at hget; simp at hget
        | some kq =>
          rw [hj] at hget
          simp only [DbResult.ok.injEq, Option.some.injEq] at hget
          rw [← hget.1]
          exact ⟨rfl, rfl⟩
    refine ⟨?_, hnames⟩
    simp only [KilnDatabase.update_kiln_program]
    rw [hget]
    simp [hne]
  · intro hget
    simp only [KilnDatabase.update_kiln_program]
    rw [hget]

/-- C3 witness: a caller holding the stored names but an altered kiln id
(7 instead of 1) is rejected with `InconsistentProgram ("K", "P")` —
the names carried equal the stored ones — and the store is unchanged. -/
theorem claim_C3_witness :
    KilnDatabase.update_kiln_program storeKP ⟨⟨7, "K", "kd"⟩, ⟨1, "P", "pd", 1⟩, []⟩ =
      DbResult.err (DatabaseError.InconsistentProgram ("K", "P")) storeKP :=
  ((claim_C3_header_mismatch storeKP ⟨⟨7, "K", "kd"⟩, ⟨1, "P", "pd", 1⟩, []⟩
    ⟨⟨1, "K", "kd"⟩, ⟨1, "P", "pd", 1⟩, []⟩).1 (by decide) (by decide)).1

/-- C10: when the caller's project does not exist in the store,
`add_project_image` still inserts the image row (tied to the caller's
in-memory project id) and then panics while unwrapping the re-fetch of
the project, rather than returning `NoSuchName` or any other error. -/
theorem claim_C10_missing_project_panics (s : Store) (project : KilnProject)
    (image_name description : String) (image_data : List Nat)
    (hf : s.failing = false)
    (habs : s.projects.filter (fun p => p.name == project.project.name) = []) :
    KilnDatabase.add_project_image s project image_name description image_data =
      DbResult.panic { s with
        images := s.images ++
          [⟨s.nextImageId, project.project.id, image_name, description, image_data⟩],
        nextImageId := s.nextImageId + 1 } := by
  simp [KilnDatabase.add_project_image, KilnDatabase.get_project, hf, habs]

/-- C10 witness: on the empty store, adding an image to an in-memory
project named "Ghost" inserts the row and panics. -/
theorem claim_C10_witness :
    KilnDatabase.add_project_image emptyStore (KilnProject.new (Project.new 1 "Ghost" "d"))
        "img.jpg" "cap" [1, 2, 3] =
      DbResult.panic { emptyStore with
        images := emptyStore.images ++ [⟨emptyStore.nextImageId, 1, "img.jpg", "cap", [1, 2, 3]⟩],
        nextImageId := emptyStore.nextImageId + 1 } :=
  claim_C10_missing_project_panics emptyStore (KilnProject.new (Project.new 1 "Ghost" "d"))
    "img.jpg" "cap" [1, 2, 3] rfl rfl

/-!  Helper lemmas for the project fetch path (C8). -/

theorem head?_isSome_of_mem {α : Type} {l : List α} {a : α} (h : a ∈ l) :
    ∃ b, l.head? = some b := by
  cases l with
  | nil => simp at h
  | cons x xs => exact ⟨x, rfl⟩

/-- The kiln/sequence join resolves whenever a matching pair of rows
exists. -/
theorem joinKilnSeq_some (kilns : List Kiln) (seqs : List FiringSequence) (k : Kiln)
    (q : FiringSequence) (hk : k ∈ kilns) (hq : q ∈ seqs) (hkq : q.kiln_id = k.id) :
    ∃ r, joinKilnSeq kilns seqs k.name q.name = some r := by
  apply head?_isSome_of_mem (a := (k, q))
  rw [List.mem_flatMap]
  refine ⟨k, ?_, ?_⟩
  · rw [List.mem_filter]
    exact ⟨hk, by simp⟩
  · rw [List.mem_map]
    refine ⟨q, ?_, rfl⟩
    rw [List.mem_filter]
    exact ⟨hq, by simp [hkq]⟩

/-- Every row the three-table join produces names a sequence/kiln pair
that exists in the store. -/
theorem projectFiringJoin_mem (s : Store) (pid : Nat)
    (row : FiringSequence × String × String) (h : row ∈ projectFiringJoin s pid) :
    ∃ k ∈ s.kilns, row.1 ∈ s.seqs ∧ row.1.kiln_id = k.id ∧ row.2.1 = k.name := by
  unfold projectFiringJoin at h
  rw [List.mem_flatMap] at h
  obtain ⟨f, _, h⟩ := h
  rw [List.mem_flatMap] at h
  obtain ⟨q, hq, h⟩ := h
  rw [List.mem_map] at h
  obtain ⟨k, hk, hrow⟩ := h
  rw [List.mem_filter] at hq hk
  subst hrow
  refine ⟨k, hk.1, hq.1, ?_, rfl⟩
  exact eq_of_beq hk.2

/-- A resolvable join makes `get_kiln_program` return some program. -/
theorem getKilnProgram_ok (s : Store) (kn pn : String) (r : Kiln × FiringSequence)
    (hf : s.failing = false) (hj : joinKilnSeq s.kilns s.seqs kn pn = some r) :
    ∃ pgm, KilnDatabase.get_kiln_program s kn pn = DbResult.ok (some pgm) s := by
  obtain ⟨k, q⟩ := r
  unfold KilnDatabase.get_kiln_program
  rw [hj, hf]
  exact ⟨_, rfl⟩

/-- The resolution loop of the project fetch cannot fail when every row
re-resolves. -/
theorem collectFirings_ok (s : Store) (rows : List (FiringSequence × String × String))
    (h : ∀ row ∈ rows, ∃ pgm,
      KilnDatabase.get_kiln_program s row.2.1 row.1.name = DbResult.ok (some pgm) s) :
    ∃ l, collectFirings s rows = DbResult.ok l s := by
  induction rows with
  | nil => exact ⟨[], rfl⟩
  | cons row rest ih =>
    obtain ⟨q, kname, comment⟩ := row
    obtain ⟨pgm, hpgm⟩ := h (q, kname, comment) (by simp)
    obtain ⟨l, hl⟩ := ih (fun r hr => h r (by simp [hr]))
    refine ⟨(pgm, comment) :: l, ?_⟩
    rw [collectFirings, hpgm, hl]

theorem foldl_add_firing_project (l : List (KilnProgram × String)) (kp : KilnProject) :
    (l.foldl (fun kp gc => kp.add_firing gc.1 gc.2) kp).project = kp.project := by
  induction l generalizing kp with
  | nil => rfl
  | cons gc l ih => rw [List.foldl_cons, ih]; rfl

theorem foldl_add_firing_pictures (l : List (KilnProgram × String)) (kp : KilnProject) :
    (l.foldl (fun kp gc => kp.add_firing gc.1 gc.2) kp).pictures = kp.pictures := by
  induction l generalizing kp with
  | nil => rfl
  | cons gc l ih => rw [List.foldl_cons, ih]; rfl

theorem foldl_add_picture_pictures (l : List ProjectImage) (kp : KilnProject) :
    (l.foldl (fun kp im => kp.add_picture im) kp).pictures = kp.pictures ++ l := by
  induction l generalizing kp with
  | nil => simp [List.foldl_nil]
  | cons im l ih =>
    rw [List.foldl_cons, ih]
    simp [KilnProject.add_picture]

theorem pairwise_filter_of_pairwise {α : Type} {R : α → α → Prop} (p : α → Bool)
    (l : List α) (h : l.Pairwise R) : (l.filter p).Pairwise R :=
  List.Pairwise.sublist (List.filter_sublist l) h

/-- C8: adding an image to a stored project and fetching the project by
name yields a picture list that ends with exactly that image — name,
caption and byte contents as given, byte-for-byte — and the list is
ordered by ascending image id.  (`r` is the stored `Projects` row the
project's name resolves to; its id matches the caller's handle.) -/
theorem claim_C8_image_roundtrip (s : Store) (project : KilnProject)
    (image_name description : String) (image_data : List Nat) (r : Project)
    (hf : s.failing = false)
    (hrow : (s.projects.filter (fun p => p.name == project.project.name)).head? = some r)
    (hid : r.id = project.project.id)
    (hsort : s.images.Pairwise (fun a b => a.id < b.id))
    (hbound : ∀ im ∈ s.images, im.id < s.nextImageId) :
    ∃ kp,
      KilnDatabase.add_project_image s project image_name description image_data =
        DbResult.ok kp
          { s with
            images := s.images ++
              [⟨s.nextImageId, project.project.id, image_name, description, image_data⟩],
            nextImageId := s.nextImageId + 1 } ∧
      KilnDatabase.get_project
          { s with
            images := s.images ++
              [⟨s.nextImageId, project.project.id, image_name, description, image_data⟩],
            nextImageId := s.nextImageId + 1 } project.project.name =
        DbResult.ok (some kp)
          { s with
            images := s.images ++
              [⟨s.nextImageId, project.project.id, image_name, description, image_data⟩],
            nextImageId := s.nextImageId + 1 } ∧
      kp.pictures =
        s.images.filter (fun im => im.project_id == project.project.id) ++
          [⟨s.nextImageId, project.project.id, image_name, description, image_data⟩] ∧
      kp.pictures.Pairwise (fun a b => a.id < b.id) := by
  set newImg : ProjectImage :=
    ⟨s.nextImageId, project.project.id, image_name, description, image_data⟩ with hnew
  set s1 : Store := { s with
    images := s.images ++ [newImg],
    nextImageId := s.nextImageId + 1 } with hs1
  have hf1 : s1.failing = false := hf
  have hproj1 : s1.projects = s.projects := rfl
  have himg1 : s1.images = s.images ++ [newImg] := rfl
  -- the firings stage resolves every joined row
  have hrows : ∀ row ∈ insSortBy (fun t => t.1.id) (projectFiringJoin s1 r.id), ∃ pgm,
      KilnDatabase.get_kiln_program s1 row.2.1 row.1.name = DbResult.ok (some pgm) s1 := by
    intro row hr
    rw [mem_insSortBy] at hr
    obtain ⟨k, hk, hqmem, hkq, hrname⟩ := projectFiringJoin_mem s1 r.id row hr
    obtain ⟨jr, hjr⟩ := joinKilnSeq_some s1.kilns s1.seqs k row.1 hk hqmem hkq
    rw [hrname]
    exact getKilnProgram_ok s1 k.name row.1.name jr hf1 hjr
  obtain ⟨fir, hfir⟩ := collectFirings_ok s1 _ hrows
  have hgfs : KilnDatabase.get_project_firing_steps s1 (KilnProject.new r) =
      DbResult.ok fir s1 := by
    unfold KilnDatabase.get_project_firing_steps
    rw [hf1]
    exact hfir
  -- the images stage returns the old pictures of the project plus the new one
  have hfilter : s1.images.filter (fun im => im.project_id == r.id) =
      s.images.filter (fun im => im.project_id == r.id) ++ [newImg] := by
    rw [himg1, List.filter_append]
    congr 1
    simp [hnew, hid]
  have hsorted : (s.images.filter (fun im => im.project_id == r.id) ++ [newImg]).Pairwise
      (fun a b => a.id < b.id) := by
    rw [List.pairwise_append]
    refine ⟨pairwise_filter_of_pairwise _ _ hsort, by simp, ?_⟩
    intro a ha b hb
    rw [List.mem_filter] at ha
    rw [List.mem_singleton] at hb
    subst hb
    have := hbound a ha.1
    simpa [hnew] using this
  have hwp : (fir.foldl (fun kp gc => kp.add_firing gc.1 gc.2) (KilnProject.new r)).project =
      r := foldl_add_firing_project fir (KilnProject.new r)
  have hgpi : KilnDatabase.get_project_images s1
      (fir.foldl (fun kp gc => kp.add_firing gc.1 gc.2) (KilnProject.new r)) =
      DbResult.ok (s.images.filter (fun im => im.project_id == r.id) ++ [newImg]) s1 := by
    unfold KilnDatabase.get_project_images
    rw [hf1]
    simp only [hwp]
    rw [hfilter, insSortBy_eq_self _ _ hsorted]
    rfl
  -- the re-fetch of the whole project
  have hgp : KilnDatabase.get_project s1 project.project.name =
      DbResult.ok (some ((s.images.filter (fun im => im.project_id == r.id) ++
          [newImg]).foldl (fun kp im => kp.add_picture im)
        (fir.foldl (fun kp gc => kp.add_firing gc.1 gc.2) (KilnProject.new r)))) s1 := by
    simp only [KilnDatabase.get_project, hf, hproj1, hrow, Bool.false_eq_true, if_false]
    simp only [hgfs]
    simp only [hgpi]
  refine ⟨(s.images.filter (fun im => im.project_id == r.id) ++ [newImg]).foldl
    (fun kp im => kp.add_picture im)
    (fir.foldl (fun kp gc => kp.add_firing gc.1 gc.2) (KilnProject.new r)), ?_, ?_, ?_, ?_⟩
  · have hs1f : { s with
        images := s.images ++ [newImg],
        nextImageId := s.nextImageId + 1,
        failing := false } = s1 := by
      rw [hs1, hf]
    simp only [KilnDatabase.add_project_image, hf, Bool.false_eq_true, if_false]
    rw [← hnew, hs1f, hgp]
  · exact hgp
  · rw [foldl_add_picture_pictures, foldl_add_firing_pictures]
    have hb : (KilnProject.new r).pictures = [] := rfl
    rw [hb, List.nil_append, hid]
  · rw [foldl_add_picture_pictures, foldl_add_firing_pictures]
    have hb : (KilnProject.new r).pictures = [] := rfl
    rw [hb, List.nil_append]
    exact hsorted

/-!  Helper lemmas about the insertion loop of `update_kiln_program` (C1). -/

theorem mkNewSteps_length (seqid : Nat) :
    ∀ (nextId : Nat) (l : List FiringStep), (mkNewSteps seqid nextId l).length = l.length
  | _, [] => rfl
  | nextId, st :: rest => by
    rw [mkNewSteps, List.length_cons, List.length_cons,
      mkNewSteps_length seqid (nextId + 1) rest]

theorem mkNewSteps_ids (seqid : Nat) :
    ∀ (nextId : Nat) (l : List FiringStep),
      (mkNewSteps seqid nextId l).map (fun st => st.id) = List.range' nextId l.length
  | _, [] => rfl
  | nextId, st :: rest => by
    rw [mkNewSteps, List.map_cons, mkNewSteps_ids seqid (nextId + 1) rest,
      List.length_cons, List.range'_succ]
    rfl

theorem mkNewSteps_seq (seqid : Nat) :
    ∀ (nextId : Nat) (l : List FiringStep) (st : FiringStep),
      st ∈ mkNewSteps seqid nextId l → st.sequence_id = seqid
  | _, [], st, h => by simp [mkNewSteps] at h
  | nextId, a :: rest, st, h => by
    rw [mkNewSteps] at h
    rcases List.mem_cons.mp h with h1 | h2
    · rw [h1]; rfl
    · exact mkNewSteps_seq seqid (nextId + 1) rest st h2

theorem mkNewSteps_view (seqid : Nat) :
    ∀ (nextId : Nat) (l : List FiringStep), (∀ st ∈ l, st.ramp_rate < 2 ^ 31) →
      (mkNewSteps seqid nextId l).map (fun st => (st.rampRate, st.target_temp, st.dwell_time)) =
        l.map (fun st => (st.rampRate, st.target_temp, st.dwell_time))
  | _, [], _ => rfl
  | nextId, st :: rest, h => by
    rw [mkNewSteps, List.map_cons, List.map_cons,
      mkNewSteps_view seqid (nextId + 1) rest (fun a ha => h a (List.mem_cons_of_mem st ha))]
    have hr := rampRate_new_rampRate nextId seqid st.target_temp st.dwell_time st (h st (by simp))
    rw [hr]
    exact rfl

theorem mkNewSteps_pairwise (seqid nextId : Nat) (l : List FiringStep) :
    (mkNewSteps seqid nextId l).Pairwise (fun a b => a.id < b.id) := by
  have hp : ((mkNewSteps seqid nextId l).map (fun st => st.id)).Pairwise (· < ·) := by
    rw [mkNewSteps_ids seqid nextId l]
    exact List.pairwise_lt_range' ..
  exact List.pairwise_map.mp hp

/-- After deleting (by id) every row whose id belongs to the current
step set of a sequence, no row of that sequence remains. -/
theorem remaining_filter_empty (old : List FiringStep) (sid : Nat) (delIds : List Nat)
    (hdel : ∀ st ∈ old, st.sequence_id = sid → st.id ∈ delIds) :
    (old.filter (fun st => !(delIds.contains st.id))).filter
      (fun st => st.sequence_id == sid) = [] := by
  rw [List.filter_filter, List.filter_eq_nil_iff]
  intro a ha hcon
  rw [Bool.and_eq_true, beq_iff_eq, Bool.not_eq_true'] at hcon
  have hmem : a.id ∈ delIds := hdel a ha hcon.1
  have hc : delIds.contains a.id = true := List.elem_eq_true_of_mem hmem
  rw [hcon.2] at hc
  exact Bool.false_ne_true hc

/-- C1: after a successful step replacement, fetching the program by the
caller's (kiln name, program name) pair returns exactly the program the
update echoed: the caller's kiln and sequence header, the steps in the
caller's order with ramp rate (AFAP or rate value), target temperature
and dwell time preserved, and the caller-supplied step ids replaced by
fresh store-assigned ones — consecutive ids from the step autoincrement
counter, strictly greater than every previously stored step id.  The
hypothesis on `p.steps` is the `i32` range bound every Rust caller
satisfies by construction. -/
theorem claim_C1_update_get_roundtrip (s : Store) (p p' : KilnProgram) (s' : Store)
    (hwf : StoreWF s)
    (hr : ∀ st ∈ p.steps, st.ramp_rate < 2 ^ 31)
    (hupd : KilnDatabase.update_kiln_program s p = DbResult.ok p' s') :
    KilnDatabase.get_kiln_program s' p.kiln.name p.sequence.name =
      DbResult.ok (some p') s' ∧
    p'.kiln = p.kiln ∧ p'.sequence = p.sequence ∧
    p'.steps.map (fun st => (st.rampRate, st.target_temp, st.dwell_time)) =
      p.steps.map (fun st => (st.rampRate, st.target_temp, st.dwell_time)) ∧
    p'.steps.map (fun st => st.id) = List.range' s.nextStepId p.steps.length ∧
    (∀ stNew ∈ p'.steps, ∀ stOld ∈ s.steps, stOld.id < stNew.id) := by
  cases hget : KilnDatabase.get_kiln_program s p.kiln.name p.sequence.name with
  | panic s2 => simp [KilnDatabase.update_kiln_program, hget] at hupd
  | err e s2 => simp [KilnDatabase.update_kiln_program, hget] at hupd
  | ok v s2 =>
    cases v with
    | none => simp [KilnDatabase.update_kiln_program, hget] at hupd
    | some current =>
      simp only [KilnDatabase.update_kiln_program, hget] at hupd
      by_cases hne : p.kiln ≠ current.kiln ∨ p.sequence ≠ current.sequence
      · rw [if_pos hne] at hupd
        simp at hupd
      · rw [if_neg hne] at hupd
        push_neg at hne
        obtain ⟨hkeq, hseq⟩ := hne
        injection hupd with hv hs
        have hfail : s.failing = false := by
          by_cases hb : s.failing = true
          · simp [KilnDatabase.get_kiln_program, hb] at hget
          · exact (Bool.not_eq_true _).mp hb
        cases hj : joinKilnSeq s.kilns s.seqs p.kiln.name p.sequence.name with
        | none => simp [KilnDatabase.get_kiln_program, hfail, hj] at hget
        | some kq =>
          obtain ⟨k, q⟩ := kq
          simp only [KilnDatabase.get_kiln_program, hfail, Bool.false_eq_true, if_false, hj,
            DbResult.ok.injEq, Option.some.injEq] at hget
          obtain ⟨hcur, hs2⟩ := hget
          have hqid : p.sequence.id = q.id := by
            rw [hseq, ← hcur]
            rfl
          have hcurSteps : current.steps =
              insSortBy (fun st => st.id)
                (s.steps.filter (fun st => st.sequence_id == q.id)) := by
            rw [← hcur]
          have hdel : ∀ st ∈ s.steps, st.sequence_id = q.id →
              st.id ∈ current.steps.map (fun st => st.id) := by
            intro st hst hsid
            rw [hcurSteps]
            apply List.mem_map_of_mem
            rw [mem_insSortBy, List.mem_filter]
            exact ⟨hst, by simp [hsid]⟩
          have hallseq : ∀ st ∈ mkNewSteps p.sequence.id s.nextStepId p.steps,
              (st.sequence_id == q.id) = true := by
            intro st hst
            rw [beq_iff_eq, mkNewSteps_seq p.sequence.id s.nextStepId p.steps st hst]
            exact hqid
          subst hv
          subst hs
          refine ⟨?_, rfl, rfl, ?_, ?_, ?_⟩
          · simp only [KilnDatabase.get_kiln_program, hfail, Bool.false_eq_true, if_false, hj,
              DbResult.ok.injEq, Option.some.injEq, KilnProgram.mk.injEq]
            refine ⟨⟨?_, ?_, ?_⟩, trivial⟩
            · rw [hkeq, ← hcur]
              rfl
            · rw [hseq, ← hcur]
              rfl
            · rw [List.filter_append,
                remaining_filter_empty s.steps q.id (current.steps.map (fun st => st.id)) hdel,
                List.nil_append, List.filter_eq_self.mpr hallseq]
              exact insSortBy_eq_self _ _
                (mkNewSteps_pairwise p.sequence.id s.nextStepId p.steps)
          · exact mkNewSteps_view p.sequence.id s.nextStepId p.steps hr
          · exact mkNewSteps_ids p.sequence.id s.nextStepId p.steps
          · intro stNew hNew stOld hOld
            have h1 : stNew.id ∈ List.range' s.nextStepId p.steps.length := by
              rw [← mkNewSteps_ids p.sequence.id s.nextStepId p.steps]
              exact List.mem_map_of_mem _ hNew
            exact lt_of_lt_of_le (hwf.2 stOld hOld) (List.mem_range'_1.mp h1).1

/-- C1 witness: on the store holding kiln "K" / empty program "P",
replacing the steps with the spec's example list
`[(AFAP, 1000, 30), (DegPerSec 300, 1250, 15)]` and fetching the
program back returns the same steps in order with fresh ids 1 and 2. -/
theorem claim_C1_witness :
    KilnDatabase.get_kiln_program
        ⟨[⟨1, "K", "kd"⟩], [⟨1, "P", "pd", 1⟩],
          [⟨1, 1, -1, 1000, 30⟩, ⟨2, 1, 300, 1250, 15⟩], [], [], [], 2, 2, 3, 1, 1, 1, false⟩
        "K" "P" =
      DbResult.ok
        (some ⟨⟨1, "K", "kd"⟩, ⟨1, "P", "pd", 1⟩,
          [⟨1, 1, -1, 1000, 30⟩, ⟨2, 1, 300, 1250, 15⟩]⟩)
        ⟨[⟨1, "K", "kd"⟩], [⟨1, "P", "pd", 1⟩],
          [⟨1, 1, -1, 1000, 30⟩, ⟨2, 1, 300, 1250, 15⟩], [], [], [], 2, 2, 3, 1, 1, 1, false⟩ :=
  (claim_C1_update_get_roundtrip storeKP
    ⟨⟨1, "K", "kd"⟩, ⟨1, "P", "pd", 1⟩,
      [FiringStep.new 10 1 RampRate.AFAP 1000 30,
       FiringStep.new 11 1 (RampRate.DegPerSec 300) 1250 15]⟩
    ⟨⟨1, "K", "kd"⟩, ⟨1, "P", "pd", 1⟩, [⟨1, 1, -1, 1000, 30⟩, ⟨2, 1, 300, 1250, 15⟩]⟩
    ⟨[⟨1, "K", "kd"⟩], [⟨1, "P", "pd", 1⟩],
      [⟨1, 1, -1, 1000, 30⟩, ⟨2, 1, 300, 1250, 15⟩], [], [], [], 2, 2, 3, 1, 1, 1, false⟩
    (by constructor <;> decide) (by decide) (by decide)).1

/-- Store with one project "Bowl" (id 1), no firings, no images. -/
def projStore8 : Store :=
  ⟨[], [], [], [⟨1, "Bowl", "pd"⟩], [], [], 1, 1, 1, 2, 1, 1, false⟩

/-- C8 witness: adding image "img.jpg" with caption "cap" and bytes
`[7, 8]` to project "Bowl" and fetching the project returns exactly
that image. -/
theorem claim_C8_witness :
    KilnDatabase.get_project
        { projStore8 with images := [⟨1, 1, "img.jpg", "cap", [7, 8]⟩], nextImageId := 2 }
        "Bowl" =
      DbResult.ok
        (some ⟨Project.new 1 "Bowl" "pd", [], [], [⟨1, 1, "img.jpg", "cap", [7, 8]⟩]⟩)
        { projStore8 with images := [⟨1, 1, "img.jpg", "cap", [7, 8]⟩], nextImageId := 2 } := by
  obtain ⟨kp, h1, h2, h3, h4⟩ := claim_C8_image_roundtrip projStore8
    (KilnProject.new (Project.new 1 "Bowl" "pd")) "img.jpg" "cap" [7, 8]
    (Project.new 1 "Bowl" "pd") rfl rfl rfl (by decide) (by decide)
  have heval : KilnDatabase.add_project_image projStore8
      (KilnProject.new (Project.new 1 "Bowl" "pd")) "img.jpg" "cap" [7, 8] =
      DbResult.ok
        (⟨Project.new 1 "Bowl" "pd", [], [], [⟨1, 1, "img.jpg", "cap", [7, 8]⟩]⟩ : KilnProject)
        { projStore8 with images := [⟨1, 1, "img.jpg", "cap", [7, 8]⟩], nextImageId := 2 } := by
    decide
  rw [heval] at h1
  injection h1 with hv hsv
  rw [← hv] at h2
  exact h2
